import Mathlib

/-
  Verification development for the bobscheme bytecode pipeline.

  Shallow embedding of:
  - bob/bytecode.py : opcodes, Instruction/CodeObject, the Serializer
    (symbols, strings, numbers, pairs, instructions, sequences, code objects)
    and serialize_bytecode with its magic word;
  - bob/compiler.py : the expression compiler targeting byteplay-style
    CPython instructions (label allocation made explicit as a counter);
  - bob2py.py       : CodeGenerator.op_storevar / op_fjump and
    Environment.lookup_var;
  - bob/runtime.py and bob/cmd.py : the host '+' primitive;
  - the deserializer (imported by bob2py.py from bob.bytecode but not part
    of the sources at hand) is modelled from the spec, section 4.3.

  Machine integers are Nat/Int with explicit `% 2^w`; byte streams are
  `List Nat`; Python strings are `List Nat` (their bytes) on the codec side.
-/

/-! ### Bytes and 32-bit words -/

/-- Modelled from the spec: `utils.pack_word` (module absent from the
sources) — "word - a 32-bit integer, serialized in 4 bytes as little-endian".
The four little-endian bytes of `n mod 2^32`. -/
def word2le (n : Nat) : List Nat :=
  [n % 256, n / 256 % 256, n / 65536 % 256, n / 16777216 % 256]

/-- Packing of a signed 32-bit value: two's complement, little-endian
(Python's `%` on ints is a floor mod, which agrees with `Int.emod` for a
positive modulus). -/
def packWordInt (i : Int) : List Nat :=
  word2le (i % 4294967296).toNat

/-- Read a 4-byte little-endian word off the front of a byte stream. -/
def readWord : List Nat → Option (Nat × List Nat)
  | b0 :: b1 :: b2 :: b3 :: r => some (b0 + 256 * b1 + 65536 * b2 + 16777216 * b3, r)
  | _ => none

/-- Interpret a 32-bit word as a two's-complement signed value. -/
def toSigned32 (w : Nat) : Int :=
  if w < 2147483648 then (w : Int) else (w : Int) - 4294967296

/-- Interpret a 24-bit field as a two's-complement signed value
(the instruction-argument field). -/
def toSigned24 (w : Nat) : Int :=
  if w < 8388608 then (w : Int) else (w : Int) - 16777216

/-! ### Opcodes (bob/bytecode.py) -/

def OP_CONST : Nat := 0x00
def OP_LOADVAR : Nat := 0x10
def OP_STOREVAR : Nat := 0x11
def OP_DEFVAR : Nat := 0x12
def OP_FUNCTION : Nat := 0x20
def OP_POP : Nat := 0x30
def OP_JUMP : Nat := 0x40
def OP_FJUMP : Nat := 0x41
def OP_RETURN : Nat := 0x50
def OP_CALL : Nat := 0x51

/-! ### Serializer type tags (bob/bytecode.py); byte values of the tag
characters TYPE_NULL='0', TYPE_BOOLEAN='b', TYPE_STRING='s', TYPE_NUMBER='n',
TYPE_PAIR='p', TYPE_INSTR='i', TYPE_SEQUENCE='[', TYPE_CODEOBJECT='c'. -/

def TYPE_NULL : Nat := 48
def TYPE_BOOLEAN : Nat := 98
def TYPE_STRING : Nat := 115
def TYPE_NUMBER : Nat := 110
def TYPE_PAIR : Nat := 112
def TYPE_INSTR : Nat := 105
def TYPE_SEQUENCE : Nat := 91
def TYPE_CODEOBJECT : Nat := 99

/-- The value domain the Serializer dispatches over
(`_serialize_type_dispatch`): None, Boolean, Number, Symbol, Pair,
Instruction, CodeObject, list (sequence), str.  A code object is
`ocode name args constants varnames code` with its lists kept generic,
as in the Python class (instructions in `code`, strings in `args` and
`varnames`, expression values or nested code objects in `constants`). -/
inductive BObj : Type where
  | onull : BObj
  | obool (b : Bool) : BObj
  | onum (n : Int) : BObj
  | osym (s : List Nat) : BObj
  | ostr (s : List Nat) : BObj
  | opair (a b : BObj) : BObj
  | oinstr (opcode : Nat) (arg : Option Int) : BObj
  | oseq (l : List BObj) : BObj
  | ocode (name : List Nat) (args constants varnames code : List BObj) : BObj

/-- `Serializer._s_instruction`: `arg = instr.arg or 0;
instr_word = (instr.opcode << 24) | (arg & 0xFFFFFF)`. -/
def instrWord (opcode : Nat) (arg : Int) : Nat :=
  (opcode <<< 24) ||| ((arg % 16777216).toNat)

/-- `Serializer._s_string`: tag + 4-byte length + the bytes. -/
def sString (s : List Nat) : List Nat :=
  TYPE_STRING :: (word2le s.length ++ s)

mutual
/-- `Serializer._s_object`, the dispatch over all serializable values:
  - `_s_null`: tag only;
  - `_s_boolean`: tag + one byte `\x01`/`\x00`;
  - `_s_number`: tag + packed 32-bit word of the value;
  - `_s_symbol`: `self._s_string(symbol.value)` — no tag of its own;
  - `_s_string`: tag + 4-byte length + bytes;
  - `_s_pair`: tag + first + second;
  - `_s_instruction`: tag + word (opcode high byte, argument low 3 bytes);
  - `_s_sequence`: tag + 4-byte payload length + concatenated elements;
  - `_s_codeobject`: tag + name string + args/constants/varnames/code
    as sequences. -/
def serialize : BObj → List Nat
  | .onull => [TYPE_NULL]
  | .obool b => [TYPE_BOOLEAN, if b then 1 else 0]
  | .onum n => TYPE_NUMBER :: packWordInt n
  | .osym s => sString s
  | .ostr s => sString s
  | .opair a b => TYPE_PAIR :: (serialize a ++ serialize b)
  | .oinstr op arg => TYPE_INSTR :: word2le (instrWord op (arg.getD 0))
  | .oseq l =>
      TYPE_SEQUENCE :: (word2le (serializeList l).length ++ serializeList l)
  | .ocode name args constants varnames code =>
      TYPE_CODEOBJECT ::
        (sString name
          ++ (TYPE_SEQUENCE :: (word2le (serializeList args).length ++ serializeList args))
          ++ (TYPE_SEQUENCE :: (word2le (serializeList constants).length ++ serializeList constants))
          ++ (TYPE_SEQUENCE :: (word2le (serializeList varnames).length ++ serializeList varnames))
          ++ (TYPE_SEQUENCE :: (word2le (serializeList code).length ++ serializeList code)))

/-- `Serializer._s_sequence` payload: `''.join(self._s_object(obj) for obj in seq)`. -/
def serializeList : List BObj → List Nat
  | [] => []
  | x :: xs => serialize x ++ serializeList xs
end

/-- The CodeObject class of bob/bytecode.py (fields in source order). -/
structure CodeObject where
  name : List Nat
  args : List BObj
  code : List BObj
  constants : List BObj
  varnames : List BObj

/-- View a CodeObject as a serializable value. -/
def CodeObject.toObj (co : CodeObject) : BObj :=
  .ocode co.name co.args co.constants co.varnames co.code

/-- bob/bytecode.py: version in the high two bytes, 0B0B in the low two. -/
def MAGIC_CONST : Nat := 0x00010B0B

/-- `Serializer.serialize_bytecode`: the packed magic word followed by the
serialized top-level CodeObject. -/
def serialize_bytecode (co : CodeObject) : List Nat :=
  word2le MAGIC_CONST ++ serialize co.toObj

/-! ### The compiler (bob/compiler.py)

`BobCompiler._comp` compiles one parsed expression to a list of
byteplay-style CPython instructions.  The expression model (module `expr`,
absent from the sources) is modelled from the spec, section 2 and the
dispatch table of section 4.1: an immutable tagged tree whose shapes are
exactly the cases `_comp` dispatches on (`is_self_evaluating`,
`is_variable`, `is_quoted`, `is_assignment`, `is_definition`, `is_if`,
`is_lambda`, `is_begin`, `is_application`; `cond`/`let` desugar to these
before emission).  byteplay `Label()` allocation is made explicit as a
counter threaded through compilation; the `GlobalFrame`/`LocalFrame`
objects are omitted because `_comp` never consults them when emitting. -/

/-- Modelled from the spec: a quotable datum of the external expression
model (null, boolean, number, symbol, pair). -/
inductive SDatum : Type where
  | dnull : SDatum
  | dbool (b : Bool) : SDatum
  | dnum (n : Int) : SDatum
  | dsym (s : String) : SDatum
  | dpair (a b : SDatum) : SDatum

/-- A self-evaluating literal (`is_self_evaluating`: number or boolean);
`expr.value` is the underlying host value. -/
inductive SVal : Type where
  | int (n : Int) : SVal
  | bool (b : Bool) : SVal

/-- Modelled from the spec: the shapes of parsed expressions that
`BobCompiler._comp` dispatches on (section 4.1 dispatch table). -/
inductive SExpr : Type where
  | selfEval (v : SVal) : SExpr
  | var (name : String) : SExpr
  | quoted (d : SDatum) : SExpr
  | assign (name : String) (value : SExpr) : SExpr
  | defineE (name : String) (value : SExpr) : SExpr
  | ifE (pred conseq alt : SExpr) : SExpr
  | lambdaE (params : List String) (body : List SExpr) : SExpr
  | beginE (body : List SExpr) : SExpr
  | app (op : SExpr) (operands : List SExpr) : SExpr

/-- A constant operand of LOAD_CONST (Python int, bool or None). -/
inductive PyConst : Type where
  | cint (n : Int) : PyConst
  | cbool (b : Bool) : PyConst
  | cnone : PyConst

/-- The byteplay-style instructions the compiler and bob2py emit.
`load_code` is `LOAD_CONST` of a nested byteplay `Code` object (from
`_comp_lambda`); `label` is a byteplay label marker placed in the
instruction list; `bob_const` is the quoted-datum branch of `_comp`,
which emits the bob opcode `OP_CONST` into the byteplay stream. -/
inductive PyOp : Type where
  | load_const (c : PyConst) : PyOp
  | load_code (args : List String) (body : List PyOp) : PyOp
  | load_name (s : String) : PyOp
  | store_fast (s : String) : PyOp
  | pop_top : PyOp
  | pop_jump_if_false (l : Nat) : PyOp
  | jump_absolute (l : Nat) : PyOp
  | label (l : Nat) : PyOp
  | return_value : PyOp
  | call_function (n : Nat) : PyOp
  | make_function (n : Nat) : PyOp
  | bob_const (d : SDatum) : PyOp

mutual
/-- `BobCompiler._comp`.  The second argument and result component is the
label counter (each byteplay `Label()` call yields a fresh label). -/
def comp : SExpr → Nat → List PyOp × Nat
  | .selfEval (.int n), st => ([.load_const (.cint n)], st)
  | .selfEval (.bool b), st => ([.load_const (.cbool b)], st)
  | .var s, st => ([.load_name s], st)
  | .quoted d, st => ([.bob_const d], st)
  | .assign name v, st =>
      let r := comp v st
      (r.1 ++ [.store_fast name], r.2)
  | .defineE name v, st =>
      let r := comp v st
      (r.1 ++ [.store_fast name, .load_const .cnone], r.2)
  | .ifE p c a, st =>
      let labelElse := st
      let labelAfterElse := st + 1
      let rp := comp p (st + 2)
      let rc := comp c rp.2
      let ra := comp a rc.2
      (rp.1 ++ [.pop_jump_if_false labelElse] ++ rc.1
        ++ [.jump_absolute labelAfterElse, .label labelElse] ++ ra.1
        ++ [.label labelAfterElse], ra.2)
  | .lambdaE params body, st =>
      let rb := comp_exprlist body st
      ([.load_code params (rb.1 ++ [.return_value]), .make_function 0], rb.2)
  | .beginE body, st => comp_exprlist body st
  | .app op operands, st =>
      let rargs := compPieces operands st
      let rop := comp op rargs.2
      (rop.1 ++ rargs.1.flatten ++ [.call_function operands.length], rop.2)

/-- The per-expression compiled chunks of an expression list, in order
(the `self._comp(expr)` results that `_comp_exprlist` and
`_comp_application` combine). -/
def compPieces : List SExpr → Nat → List (List PyOp) × Nat
  | [], st => ([], st)
  | e :: es, st =>
      let r := comp e st
      let rs := compPieces es r.2
      (r.1 :: rs.1, rs.2)

/-- `BobCompiler._comp_exprlist`: `instr_pop_pairs = [comp(e) ++ [POP_TOP]
for e in exprlist]`, flattened, with the final instruction dropped
(`instrs[:-1] if len(instrs) > 0 else instrs`). -/
def comp_exprlist : List SExpr → Nat → List PyOp × Nat
  | l, st =>
      let rs := compPieces l st
      let instrs := (rs.1.map (fun c => c ++ [PyOp.pop_top])).flatten
      (if 0 < instrs.length then instrs.dropLast else instrs, rs.2)
end

/-- The byteplay `Code` object as the compiler builds it (instruction
list, argument names, procedure name). -/
structure PyCode where
  code : List PyOp
  args : List String
  name : String

/-- `BobCompiler.compile`: the top-level expression list compiled as an
argument-less code object, terminated by RETURN_VALUE. -/
def BobCompiler.compile (exprlist : List SExpr) : PyCode :=
  { code := (comp_exprlist exprlist 0).1 ++ [.return_value]
    args := []
    name := "__main__" }

/-- `compile_code`: parse then compile.  Modelled from the spec:
`BobParser.parse` (module absent from the sources) is the external reader
of section 6 — a function from source text to a sequence of parsed
expressions, failing on malformed syntax — and is taken here as a
parameter. -/
def compile_code (reader : String → Option (List SExpr)) (code_str : String) :
    Option PyCode :=
  (reader code_str).map BobCompiler.compile

/-! ### bob2py.py : CodeGenerator and Environment -/

/-- The variants stored in `Environment.vars`: `('BUILTIN', method)`,
`('ARG', i)`, `('LOCAL', idx)`. -/
inductive VarKind : Type where
  | builtin : VarKind
  | argK (i : Nat) : VarKind
  | localK (i : Nat) : VarKind

/-- `Environment`: a vars mapping and an optional parent. -/
inductive Env : Type where
  | nilE : Env
  | mk (vars : List (String × VarKind)) (parent : Env) : Env

/-- `Environment.lookup_var`: look in this environment's `vars`, else the
parent chain; `none` models the `KeyError("Unknown variable ...")` raise. -/
def lookup_var : Env → String → Option VarKind
  | .nilE, _ => none
  | .mk vars parent, name =>
      match vars.lookup name with
      | some k => some k
      | none => lookup_var parent name

/-- The global environment that `CodeGenerator.generate` builds: the
builtins mapping (just `'+'`) in a parentless Environment. -/
def globalEnv : Env := .mk [("+", .builtin)] .nilE

/-- `CodeGenerator.op_storevar`: emits `STORE_FAST varnames[instr.arg]`,
consulting neither the environment nor any frame chain (the source carries
`TODO: need to set in appropriate scope; fail if not already defined`).
`none` models the IndexError on an out-of-range varnames index. -/
def op_storevar (env : Env) (varnames : List String) (arg : Nat) :
    Option (List PyOp) :=
  (varnames[arg]?).map (fun n => [PyOp.store_fast n])

/-- `CodeGenerator.op_fjump`: emits `POP_JUMP_IF_FALSE labels[instr.arg]`. -/
def op_fjump (labels : Nat → Nat) (arg : Nat) : List PyOp :=
  [PyOp.pop_jump_if_false (labels arg)]

/-- Scheme runtime values as they live on the translated program's stack
(numbers and booleans are pushed as raw host values by `op_const`). -/
inductive PyVal : Type where
  | vint (n : Int) : PyVal
  | vbool (b : Bool) : PyVal
  | vnone : PyVal

/-- Host (CPython) truthiness: False, 0 and None are falsy, everything
else here is truthy. -/
def pyTruthy : PyVal → Bool
  | .vint n => n != 0
  | .vbool b => b
  | .vnone => false

/-- The branch decision of the CPython `POP_JUMP_IF_FALSE` instruction
that `op_fjump` and `_comp_if` emit: pop the top of stack and jump when
it is falsy under host truthiness. -/
def pop_jump_if_false_jumps (v : PyVal) : Bool := !pyTruthy v

/-- Modelled from the spec: the FJUMP row of the opcode table (section
4.2) — "pop top; transfer if it is boolean-false; fall through otherwise
(all other values, including empty-list/null, are truthy)". -/
def fjump_spec_jumps : PyVal → Bool
  | .vbool false => true
  | _ => false

/-! ### The host '+' primitive (bob/runtime.py, bob/cmd.py) -/

/-- `runtime.py`: `def add(*args): return sum(args)` — Python `sum` is a
left fold with start value 0. -/
def add (args : List Int) : Int := args.foldl (· + ·) 0

/-- A value of the globals mapping `run_compiled` passes to the compiled
code: a numeric primitive, or the output primitive (whose printing is not
modelled). -/
inductive HostValue : Type where
  | prim (f : List Int → Int) : HostValue
  | outputPrim : HostValue

/-- `cmd.py run_compiled`: the globals dict
`{'+': lambda *args: sum(args), 'write': lambda *args: print(args)}`. -/
def run_compiled_globals (name : String) : Option HostValue :=
  if name = "+" then some (.prim add)
  else if name = "write" then some .outputPrim
  else none

/-! ### The deserializer, modelled from the spec (section 4.3)

The `Deserializer` class is imported from `bob.bytecode` by `bob2py.py`
but is not among the sources at hand, so decoding is modelled from the
spec: every encoded value is tag-byte + payload; decoding validates the
magic word, every tag byte, and every declared sequence length against the
bytes actually consumed, failing (`none`) on any mismatch, truncation or
unrecognized tag.  The decoders are fuelled to make the recursion over the
byte stream structural; the fuel argument strictly decreases at every
call. -/

/-- Modelled from the spec: read the 4-byte string length and the bytes of
a STRING-tagged record ("STRING: tag + 4-byte length + that many UTF-8
bytes"), failing on truncation. -/
def decodeString (l : List Nat) : Option (List Nat × List Nat) :=
  match l with
  | t :: r =>
      if t = TYPE_STRING then
        match readWord r with
        | some (len, r1) =>
            if len ≤ r1.length then some (r1.take len, r1.drop len) else none
        | none => none
      else none
  | [] => none

mutual
/-- Modelled from the spec: decode one encoded value off the front of the
stream, returning it with the unconsumed remainder.  STRING-tagged records
decode to strings (the wire format has no separate symbol tag), INSTRUCTION
words split into high-byte opcode and low-3-bytes two's-complement
argument, SEQUENCE and CODEOBJECT recurse. -/
def decodeF : Nat → List Nat → Option (BObj × List Nat)
  | 0, _ => none
  | _ + 1, [] => none
  | f + 1, t :: r =>
      if t = TYPE_NULL then some (.onull, r)
      else if t = TYPE_BOOLEAN then
        match r with
        | 0 :: r1 => some (.obool false, r1)
        | 1 :: r1 => some (.obool true, r1)
        | _ => none
      else if t = TYPE_STRING then
        match decodeString (t :: r) with
        | some (s, r1) => some (.ostr s, r1)
        | none => none
      else if t = TYPE_NUMBER then
        match readWord r with
        | some (w, r1) => some (.onum (toSigned32 w), r1)
        | none => none
      else if t = TYPE_PAIR then
        match decodeF f r with
        | some (a, r1) =>
            match decodeF f r1 with
            | some (b, r2) => some (.opair a b, r2)
            | none => none
        | none => none
      else if t = TYPE_INSTR then
        match readWord r with
        | some (w, r1) =>
            some (.oinstr (w / 16777216) (some (toSigned24 (w % 16777216))), r1)
        | none => none
      else if t = TYPE_SEQUENCE then
        match decodeSeqF f (t :: r) with
        | some (items, r1) => some (.oseq items, r1)
        | none => none
      else if t = TYPE_CODEOBJECT then
        match decodeString r with
        | some (name, r1) =>
            match decodeSeqF f r1 with
            | some (args, r2) =>
                match decodeSeqF f r2 with
                | some (constants, r3) =>
                    match decodeSeqF f r3 with
                    | some (varnames, r4) =>
                        match decodeSeqF f r4 with
                        | some (code, r5) =>
                            some (.ocode name args constants varnames code, r5)
                        | none => none
                    | none => none
                | none => none
            | none => none
        | none => none
      else none

/-- Modelled from the spec: decode a SEQUENCE-tagged record — tag, 4-byte
payload byte-length, then exactly that many bytes of concatenated encoded
elements; the declared length is validated against the bytes actually
consumed by the elements. -/
def decodeSeqF : Nat → List Nat → Option (List BObj × List Nat)
  | 0, _ => none
  | f + 1, l =>
      match l with
      | t :: r =>
          if t = TYPE_SEQUENCE then
            match readWord r with
            | some (len, r1) =>
                if len ≤ r1.length then
                  match decodeItemsF f (r1.take len) with
                  | some items => some (items, r1.drop len)
                  | none => none
                else none
            | none => none
          else none
      | [] => none

/-- Modelled from the spec: decode the elements of a sequence payload one
after another until the payload is exhausted; a trailing partial element
is a failure. -/
def decodeItemsF : Nat → List Nat → Option (List BObj)
  | _, [] => some []
  | 0, _ :: _ => none
  | f + 1, a :: l =>
      match decodeF f (a :: l) with
      | some (x, r) =>
          match decodeItemsF f r with
          | some xs => some (x :: xs)
          | none => none
      | none => none
end

/-- Modelled from the spec: `Deserializer.deserialize_bytecode` — validate
the leading magic word, decode the top-level value from the rest of the
stream, and require the stream to be fully consumed.  The fuel
`2 * length + 1` is sufficient for any serializer output
(`depthObj_succ_le`). -/
def deserialize_bytecode (l : List Nat) : Option BObj :=
  if l.take 4 = word2le MAGIC_CONST then
    match decodeF (2 * l.length + 1) (l.drop 4) with
    | some (x, []) => some x
    | _ => none
  else none

/-! ### Canonicalization and well-formedness for the round trip -/

mutual
/-- The identifications the wire format forces on a decoded value: a
Symbol decodes as its string (symbols and strings share the STRING tag),
and an absent instruction argument decodes as 0 (`arg = instr.arg or 0`).
Everything else is untouched. -/
def canon : BObj → BObj
  | .onull => .onull
  | .obool b => .obool b
  | .onum n => .onum n
  | .osym s => .ostr s
  | .ostr s => .ostr s
  | .opair a b => .opair (canon a) (canon b)
  | .oinstr op arg => .oinstr op (some (arg.getD 0))
  | .oseq l => .oseq (canonList l)
  | .ocode name args constants varnames code =>
      .ocode name (canonList args) (canonList constants)
        (canonList varnames) (canonList code)

def canonList : List BObj → List BObj
  | [] => []
  | x :: xs => canon x :: canonList xs
end

/-- All bytes of a string are in range. -/
def bytesOk (s : List Nat) : Bool := s.all (· < 256)

mutual
/-- Well-formedness of a serializable value, as the compiler produces
them: numbers fit in a signed 32-bit word, instruction opcodes are a
byte and their arguments fit in the 24-bit two's-complement field (the
bytecode.py docstring: the argument "is always numeric when the
Instruction is part of a CodeObject"), string/name bytes are bytes, and
every length field fits its 4-byte word. -/
def wfb : BObj → Bool
  | .onull => true
  | .obool _ => true
  | .onum n => decide (-2147483648 ≤ n) && decide (n < 2147483648)
  | .osym s => bytesOk s && decide (s.length < 4294967296)
  | .ostr s => bytesOk s && decide (s.length < 4294967296)
  | .opair a b => wfb a && wfb b
  | .oinstr op arg =>
      decide (op < 256) && (decide (-8388608 ≤ arg.getD 0)
        && decide (arg.getD 0 < 8388608))
  | .oseq l => wfbList l && decide ((serializeList l).length < 4294967296)
  | .ocode name args constants varnames code =>
      bytesOk name && (decide (name.length < 4294967296)
        && (wfbList args && (decide ((serializeList args).length < 4294967296)
        && (wfbList constants && (decide ((serializeList constants).length < 4294967296)
        && (wfbList varnames && (decide ((serializeList varnames).length < 4294967296)
        && (wfbList code && decide ((serializeList code).length < 4294967296)))))))))

def wfbList : List BObj → Bool
  | [] => true
  | x :: xs => wfb x && wfbList xs
end

mutual
/-- Fuel needed by `decodeF` to decode the encoding of a value. -/
def depthObj : BObj → Nat
  | .opair a b => 1 + max (depthObj a) (depthObj b)
  | .oseq l => 2 + depthList l
  | .ocode _ args constants varnames code =>
      2 + max (max (depthList args) (depthList constants))
            (max (depthList varnames) (depthList code))
  | _ => 1

/-- Fuel needed by `decodeItemsF` to decode a serialized element list. -/
def depthList : List BObj → Nat
  | [] => 0
  | x :: xs => 1 + max (depthObj x) (depthList xs)
end

/-! ### Byte-level helper lemmas -/

theorem readWord_word2le (n : Nat) (r : List Nat) :
    readWord (word2le n ++ r) = some (n % 4294967296, r) := by
  simp only [word2le, List.cons_append, List.nil_append, readWord]
  refine congrArg some (Prod.ext ?_ rfl)
  omega

theorem word2le_length (n : Nat) : (word2le n).length = 4 := rfl

theorem decodeString_sString (s : List Nat) (r : List Nat)
    (h : s.length < 4294967296) :
    decodeString (sString s ++ r) = some (s, r) := by
  have hw : readWord (word2le s.length ++ (s ++ r)) = some (s.length % 4294967296, s ++ r) :=
    readWord_word2le _ _
  have hm : s.length % 4294967296 = s.length := Nat.mod_eq_of_lt h
  simp only [sString, List.cons_append, List.append_assoc, decodeString, hw, hm,
    if_true, eq_self_iff_true]
  rw [if_pos (by simp)]
  rw [List.take_left' rfl, List.drop_left' rfl]

theorem serialize_ne_nil (x : BObj) : serialize x ≠ [] := by
  cases x <;> simp [serialize, sString, packWordInt, word2le]

theorem instrWord_eq (op : Nat) (a : Int) :
    instrWord op a = 16777216 * op + (a % 16777216).toNat := by
  have hlt : (a % 16777216).toNat < 2 ^ 24 := by
    have h0 : (0 : Int) ≤ a % 16777216 := Int.emod_nonneg a (by norm_num)
    have h1 : a % 16777216 < 16777216 := Int.emod_lt_of_pos a (by norm_num)
    omega
  have := (Nat.mul_add_lt_is_or hlt op).symm
  simpa [instrWord, Nat.shiftLeft_eq, Nat.mul_comm] using this

theorem toSigned32_packed (n : Int) (h0 : -2147483648 ≤ n) (h1 : n < 2147483648) :
    toSigned32 ((n % 4294967296).toNat % 4294967296) = n := by
  have e0 : (0 : Int) ≤ n % 4294967296 := Int.emod_nonneg n (by norm_num)
  have e1 : n % 4294967296 < 4294967296 := Int.emod_lt_of_pos n (by norm_num)
  have hmod : n % 4294967296 = if 0 ≤ n then n else n + 4294967296 := by
    split
    · exact Int.emod_eq_of_lt (by omega) (by omega)
    · have : (n + 4294967296) % 4294967296 = n + 4294967296 :=
        Int.emod_eq_of_lt (by omega) (by omega)
      omega
  have ht : ((n % 4294967296).toNat : Int) = n % 4294967296 :=
    Int.toNat_of_nonneg e0
  have hsm : (n % 4294967296).toNat % 4294967296 = (n % 4294967296).toNat := by
    apply Nat.mod_eq_of_lt; omega
  rw [hsm, toSigned32]
  split
  · omega
  · omega

theorem toSigned24_packed (a : Int) (h0 : -8388608 ≤ a) (h1 : a < 8388608) :
    toSigned24 (a % 16777216).toNat = a := by
  have e0 : (0 : Int) ≤ a % 16777216 := Int.emod_nonneg a (by norm_num)
  have e1 : a % 16777216 < 16777216 := Int.emod_lt_of_pos a (by norm_num)
  have hmod : a % 16777216 = if 0 ≤ a then a else a + 16777216 := by
    split
    · exact Int.emod_eq_of_lt (by omega) (by omega)
    · have : (a + 16777216) % 16777216 = a + 16777216 :=
        Int.emod_eq_of_lt (by omega) (by omega)
      omega
  have ht : ((a % 16777216).toNat : Int) = a % 16777216 := Int.toNat_of_nonneg e0
  rw [toSigned24]
  split
  · omega
  · omega

/-- The SEQUENCE framing of `Serializer._s_sequence`. -/
def sSeq (l : List BObj) : List Nat :=
  TYPE_SEQUENCE :: (word2le (serializeList l).length ++ serializeList l)

theorem serialize_oseq (l : List BObj) : serialize (.oseq l) = sSeq l := rfl

theorem serialize_ocode (name : List Nat) (args constants varnames code : List BObj) :
    serialize (.ocode name args constants varnames code) =
      TYPE_CODEOBJECT ::
        (sString name ++ sSeq args ++ sSeq constants ++ sSeq varnames ++ sSeq code) := by
  simp [serialize, sSeq, List.append_assoc]

/-- The round trip through the wire format, by induction on decoder fuel:
decoding the serialization of a well-formed value yields its
canonicalization and consumes exactly its bytes. -/
theorem rt_main (f : Nat) :
    (∀ x rest, wfb x = true → depthObj x ≤ f →
      decodeF f (serialize x ++ rest) = some (canon x, rest))
  ∧ (∀ l, wfbList l = true → depthList l ≤ f →
      decodeItemsF f (serializeList l) = some (canonList l))
  ∧ (∀ l rest, wfbList l = true → (serializeList l).length < 4294967296 →
      depthList l + 1 ≤ f →
      decodeSeqF f (sSeq l ++ rest) = some (canonList l, rest)) := by
  induction f with
  | zero =>
    refine ⟨?_, ?_, ?_⟩
    · intro x rest _ hd
      exfalso
      cases x <;> simp [depthObj] at hd
    · intro l hwf hd
      cases l with
      | nil => simp [serializeList, decodeItemsF, canonList]
      | cons x xs => simp [depthList] at hd
    · intro l rest _ _ hd
      omega
  | succ f ih =>
    obtain ⟨ihO, ihI, ihS⟩ := ih
    refine ⟨?_, ?_, ?_⟩
    · intro x rest hwf hd
      cases x with
      | onull =>
        simp [serialize, decodeF, canon, TYPE_NULL]
      | obool b =>
        cases b <;>
          simp [serialize, decodeF, canon, TYPE_NULL, TYPE_BOOLEAN]
      | onum n =>
        simp only [wfb, Bool.and_eq_true, decide_eq_true_eq] at hwf
        have hrw := readWord_word2le ((n % 4294967296).toNat) rest
        have hsig := toSigned32_packed n hwf.1 hwf.2
        simp [serialize, packWordInt, decodeF, canon, hrw, hsig,
          TYPE_NULL, TYPE_BOOLEAN, TYPE_STRING, TYPE_NUMBER]
      | osym s =>
        simp only [wfb, Bool.and_eq_true, decide_eq_true_eq] at hwf
        have h1 := decodeString_sString s rest hwf.2
        simp only [sString, TYPE_STRING, List.cons_append, List.append_assoc] at h1
        simp [serialize, sString, decodeF, canon, h1,
          TYPE_NULL, TYPE_BOOLEAN, TYPE_STRING]
      | ostr s =>
        simp only [wfb, Bool.and_eq_true, decide_eq_true_eq] at hwf
        have h1 := decodeString_sString s rest hwf.2
        simp only [sString, TYPE_STRING, List.cons_append, List.append_assoc] at h1
        simp [serialize, sString, decodeF, canon, h1,
          TYPE_NULL, TYPE_BOOLEAN, TYPE_STRING]
      | opair a b =>
        simp only [wfb, Bool.and_eq_true] at hwf
        have hmax : max (depthObj a) (depthObj b) ≤ f := by
          simp only [depthObj] at hd; omega
        obtain ⟨hda, hdb⟩ := Nat.max_le.mp hmax
        have ha := ihO a (serialize b ++ rest) hwf.1 hda
        have hb := ihO b rest hwf.2 hdb
        simp [serialize, decodeF, canon, ha, hb, List.append_assoc,
          TYPE_NULL, TYPE_BOOLEAN, TYPE_STRING, TYPE_NUMBER, TYPE_PAIR]
      | oinstr op arg =>
        simp only [wfb, Bool.and_eq_true, decide_eq_true_eq] at hwf
        obtain ⟨hop, hlo, hhi⟩ := hwf
        have hlow0 : (0 : Int) ≤ arg.getD 0 % 16777216 :=
          Int.emod_nonneg _ (by norm_num)
        have hlow1 : arg.getD 0 % 16777216 < 16777216 :=
          Int.emod_lt_of_pos _ (by norm_num)
        have hW : instrWord op (arg.getD 0)
            = 16777216 * op + (arg.getD 0 % 16777216).toNat := instrWord_eq _ _
        have hWlt : instrWord op (arg.getD 0) < 4294967296 := by rw [hW]; omega
        have hrw := readWord_word2le (instrWord op (arg.getD 0)) rest
        rw [Nat.mod_eq_of_lt hWlt] at hrw
        have hdiv : instrWord op (arg.getD 0) / 16777216 = op := by rw [hW]; omega
        have hmod : instrWord op (arg.getD 0) % 16777216
            = (arg.getD 0 % 16777216).toNat := by rw [hW]; omega
        have hsig := toSigned24_packed (arg.getD 0) hlo hhi
        simp [serialize, decodeF, canon, hrw, hdiv, hmod, hsig,
          TYPE_NULL, TYPE_BOOLEAN, TYPE_STRING, TYPE_NUMBER, TYPE_PAIR, TYPE_INSTR]
      | oseq l =>
        simp only [wfb, Bool.and_eq_true, decide_eq_true_eq] at hwf
        have hdep : depthList l + 1 ≤ f := by simp only [depthObj] at hd; omega
        have hS := ihS l rest hwf.1 hwf.2 hdep
        rw [serialize_oseq]
        simp only [sSeq, TYPE_SEQUENCE, List.cons_append, List.append_assoc] at hS ⊢
        simp [decodeF, canon, hS,
          TYPE_NULL, TYPE_BOOLEAN, TYPE_STRING, TYPE_NUMBER, TYPE_PAIR, TYPE_INSTR,
          TYPE_SEQUENCE]
      | ocode name args constants varnames code =>
        simp only [wfb, Bool.and_eq_true, decide_eq_true_eq] at hwf
        obtain ⟨hnb, hnl, hwa, hla, hwc, hlc, hwv, hlv, hwcd, hlcd⟩ := hwf
        have hmax : max (max (depthList args) (depthList constants))
            (max (depthList varnames) (depthList code)) ≤ f - 1 ∧ 1 ≤ f := by
          simp only [depthObj] at hd; omega
        obtain ⟨hm, hf1⟩ := hmax
        obtain ⟨hm1, hm2⟩ := Nat.max_le.mp hm
        obtain ⟨hda, hdc⟩ := Nat.max_le.mp hm1
        obtain ⟨hdv, hdcd⟩ := Nat.max_le.mp hm2
        have h1 := decodeString_sString name
          (sSeq args ++ (sSeq constants ++ (sSeq varnames ++ (sSeq code ++ rest)))) hnl
        have h2 := ihS args (sSeq constants ++ (sSeq varnames ++ (sSeq code ++ rest)))
          hwa hla (by omega)
        have h3 := ihS constants (sSeq varnames ++ (sSeq code ++ rest)) hwc hlc (by omega)
        have h4 := ihS varnames (sSeq code ++ rest) hwv hlv (by omega)
        have h5 := ihS code rest hwcd hlcd (by omega)
        rw [serialize_ocode]
        simp only [List.cons_append, List.append_assoc]
        simp [decodeF, canon, h1, h2, h3, h4, h5,
          TYPE_NULL, TYPE_BOOLEAN, TYPE_STRING, TYPE_NUMBER, TYPE_PAIR, TYPE_INSTR,
          TYPE_SEQUENCE, TYPE_CODEOBJECT]
    · intro l hwf hd
      cases l with
      | nil => simp [serializeList, decodeItemsF, canonList]
      | cons x xs =>
        simp only [wfbList, Bool.and_eq_true] at hwf
        have hmax : max (depthObj x) (depthList xs) ≤ f := by
          simp only [depthList] at hd; omega
        obtain ⟨hdx, hdxs⟩ := Nat.max_le.mp hmax
        have hx := ihO x (serializeList xs) hwf.1 hdx
        have hxs := ihI xs hwf.2 hdxs
        obtain ⟨hd0, tl0, he⟩ := List.exists_cons_of_ne_nil (serialize_ne_nil x)
        simp only [serializeList]
        rw [he] at hx ⊢
        simp only [List.cons_append] at hx ⊢
        simp [decodeItemsF, hx, hxs, canonList]
    · intro l rest hwf hlen hd
      have hrw := readWord_word2le ((serializeList l).length) (serializeList l ++ rest)
      rw [Nat.mod_eq_of_lt hlen] at hrw
      have hI := ihI l hwf (by omega)
      simp only [sSeq, List.cons_append, List.append_assoc]
      simp [decodeSeqF, hrw, TYPE_SEQUENCE,
        List.take_left' rfl, List.drop_left' rfl, hI]

mutual
/-- The decoder fuel a value needs is dominated by its encoded size. -/
theorem depthObj_succ_le (x : BObj) : depthObj x + 1 ≤ 2 * (serialize x).length := by
  cases x with
  | onull => simp [depthObj, serialize]
  | obool b => simp [depthObj, serialize]
  | onum n => simp [depthObj, serialize, packWordInt, word2le]
  | osym s => simp [depthObj, serialize, sString, word2le]
  | ostr s => simp [depthObj, serialize, sString, word2le]
  | opair a b =>
    have ha := depthObj_succ_le a
    have hb := depthObj_succ_le b
    have hm : max (depthObj a) (depthObj b) ≤ depthObj a + depthObj b :=
      max_le (Nat.le_add_right _ _) (Nat.le_add_left _ _)
    simp only [depthObj, serialize, List.length_cons, List.length_append]
    omega
  | oinstr op arg => simp [depthObj, serialize, word2le]
  | oseq l =>
    have hl := depthList_le l
    simp only [depthObj, serialize, List.length_cons, List.length_append,
      word2le, List.length_nil]
    omega
  | ocode name args constants varnames code =>
    have h1 := depthList_le args
    have h2 := depthList_le constants
    have h3 := depthList_le varnames
    have h4 := depthList_le code
    have hm : max (max (depthList args) (depthList constants))
        (max (depthList varnames) (depthList code))
        ≤ depthList args + depthList constants + depthList varnames + depthList code := by
      apply max_le
      · apply max_le <;> omega
      · apply max_le <;> omega
    simp only [depthObj, serialize, sString, List.length_cons, List.length_append,
      word2le, List.length_nil]
    omega

theorem depthList_le (l : List BObj) : depthList l ≤ 2 * (serializeList l).length := by
  cases l with
  | nil => simp [depthList, serializeList]
  | cons x xs =>
    have hx := depthObj_succ_le x
    have hxs := depthList_le xs
    have hm : max (depthObj x) (depthList xs) ≤ depthObj x + depthList xs :=
      max_le (Nat.le_add_right _ _) (Nat.le_add_left _ _)
    simp only [depthList, serializeList, List.length_append]
    omega
end

/-- Deserializing the serializer's output succeeds and yields the
canonicalized code object, for any well-formed CodeObject. -/
theorem deserialize_serialize (co : CodeObject) (h : wfb co.toObj = true) :
    deserialize_bytecode (serialize_bytecode co) = some (canon co.toObj) := by
  have hlen4 : (word2le MAGIC_CONST).length = 4 := rfl
  have hfuel : depthObj co.toObj ≤ 2 * (serialize_bytecode co).length + 1 := by
    have := depthObj_succ_le co.toObj
    simp only [serialize_bytecode, List.length_append, hlen4]
    omega
  have hdec := (rt_main (2 * (serialize_bytecode co).length + 1)).1 co.toObj [] h hfuel
  rw [List.append_nil] at hdec
  have htake : List.take 4 (serialize_bytecode co) = word2le MAGIC_CONST := by
    rw [serialize_bytecode]; exact List.take_left' hlen4
  have hdrop : List.drop 4 (serialize_bytecode co) = serialize co.toObj := by
    rw [serialize_bytecode]; exact List.drop_left' hlen4
  rw [deserialize_bytecode, if_pos htake, hdrop, hdec]

/-! ### Shared helper facts for the claims -/

/-- `_s_symbol` delegates to `_s_string`, so a Symbol and the equal string
serialize identically. -/
theorem s_symbol_eq_s_string (s : List Nat) :
    serialize (.osym s) = serialize (.ostr s) := rfl

/-- The CodeObject that the spec's compiler (section 4.1) produces for the
program `(quote a)`: one Symbol constant, code `CONST 0; RETURN`. -/
def quoteProgramCO : CodeObject :=
  { name := []
    args := []
    code := [.oinstr OP_CONST (some 0), .oinstr OP_RETURN none]
    constants := [.osym [97]]
    varnames := [] }

/-- The sequencing shape of section 4.1: each compiled sub-expression in
order with one POP_TOP between consecutive ones (none after the last). -/
def popJoin : List (List PyOp) → List PyOp
  | [] => []
  | [c] => c
  | c :: cs => c ++ [PyOp.pop_top] ++ popJoin cs

theorem flat_pop_ne_nil (ps : List (List PyOp)) (h : ps ≠ []) :
    (ps.map (fun c => c ++ [PyOp.pop_top])).flatten ≠ [] := by
  cases ps with
  | nil => exact absurd rfl h
  | cons c cs => simp

theorem dropLast_flat_pop (ps : List (List PyOp)) :
    ((ps.map (fun c => c ++ [PyOp.pop_top])).flatten).dropLast = popJoin ps := by
  induction ps with
  | nil => simp [popJoin]
  | cons c cs ih =>
    cases cs with
    | nil => simp [popJoin]
    | cons d ds =>
      have hne := flat_pop_ne_nil (d :: ds) (by simp)
      rw [List.map_cons, List.flatten_cons, List.dropLast_append_of_ne_nil _ hne, ih]
      simp [popJoin, List.append_assoc]

theorem comp_exprlist_eq (l : List SExpr) (st : Nat) :
    comp_exprlist l st = (popJoin (compPieces l st).1, (compPieces l st).2) := by
  rcases hps : compPieces l st with ⟨ps, st2⟩
  simp only [comp_exprlist, hps]
  cases ps with
  | nil => simp [popJoin]
  | cons c cs =>
    have hne := flat_pop_ne_nil (c :: cs) (by simp)
    have hlen : 0 < ((List.map (fun x => x ++ [PyOp.pop_top]) (c :: cs)).flatten).length :=
      List.length_pos.mpr hne
    rw [if_pos hlen, dropLast_flat_pop]

/-! ### The claims -/

/-- C1 (counterexample): `decode(encode(C))` is NOT structurally equal to C
for every compiler-produced CodeObject: for the code object of the program
`(quote a)` — a Symbol constant and a RETURN with no argument — the decoded
object differs from the original (the Symbol comes back as a string and the
absent argument as 0), because `_s_symbol` writes the same STRING record as
`_s_string` and `_s_instruction` writes `arg or 0`. -/
theorem C1_counterexample :
    deserialize_bytecode (serialize_bytecode quoteProgramCO)
      ≠ some quoteProgramCO.toObj := by
  have h := deserialize_serialize quoteProgramCO (by decide)
  rw [h]
  intro hc
  simp only [Option.some.injEq] at hc
  simp [quoteProgramCO, CodeObject.toObj, canon, canonList] at hc

/-- C1 (amended): for every well-formed CodeObject (32-bit numbers,
byte-sized opcodes, 24-bit instruction arguments, in-range lengths),
decoding the encoding yields exactly the canonicalized object: the same
structure with Symbol constants replaced by their strings and absent
instruction arguments by 0; opcodes, argument values, and the order and
nesting of constants/varnames are preserved exactly. -/
theorem C1_roundtrip_upto_canon (co : CodeObject) (h : wfb co.toObj = true) :
    deserialize_bytecode (serialize_bytecode co) = some (canon co.toObj) :=
  deserialize_serialize co h

theorem C1_roundtrip_upto_canon_witness :
    wfb quoteProgramCO.toObj = true ∧
    deserialize_bytecode (serialize_bytecode quoteProgramCO)
      = some (canon quoteProgramCO.toObj) :=
  ⟨by decide, C1_roundtrip_upto_canon quoteProgramCO (by decide)⟩

/-- C2 (counterexample): an instruction argument that does not fit in 24
bits does NOT make encoding fail — `_s_instruction` masks with `0xFFFFFF`
and produces a byte stream, namely the same five bytes as argument 0. -/
theorem C2_counterexample :
    serialize (.oinstr OP_CONST (some 16777216))
        = serialize (.oinstr OP_CONST (some 0))
    ∧ serialize (.oinstr OP_CONST (some 16777216)) = [TYPE_INSTR, 0, 0, 0, 0] :=
  ⟨rfl, by decide⟩

/-- C2 (amended): serializing an Instruction emits its tag byte followed by
one 4-byte little-endian word whose high byte is the opcode and whose low 3
bytes are the argument truncated to 24 bits (two's complement); encoding is
total — an argument that does not fit in 24 bits is silently reduced
modulo 2^24 instead of failing. -/
theorem C2_instruction_format (op : Nat) (a : Int) (hop : op < 256) :
    serialize (.oinstr op (some a)) = TYPE_INSTR :: word2le (instrWord op a)
    ∧ instrWord op a / 16777216 % 256 = op
    ∧ ((instrWord op a % 16777216 : Nat) : Int) = a % 16777216
    ∧ instrWord op (a + 16777216) = instrWord op a := by
  have h0 : (0 : Int) ≤ a % 16777216 := Int.emod_nonneg _ (by norm_num)
  have h1 : a % 16777216 < 16777216 := Int.emod_lt_of_pos _ (by norm_num)
  have hW := instrWord_eq op a
  refine ⟨rfl, by rw [hW]; omega, ?_, ?_⟩
  · have hm : (16777216 * op + (a % 16777216).toNat) % 16777216
        = (a % 16777216).toNat := by omega
    rw [hW, hm, Int.toNat_of_nonneg h0]
  · have hmod : (a + 16777216) % 16777216 = a % 16777216 := by omega
    rw [instrWord, instrWord, hmod]

theorem C2_instruction_format_witness :
    OP_STOREVAR < 256 ∧
    (serialize (.oinstr OP_STOREVAR (some 5))
        = TYPE_INSTR :: word2le (instrWord OP_STOREVAR 5)
    ∧ instrWord OP_STOREVAR 5 / 16777216 % 256 = OP_STOREVAR
    ∧ ((instrWord OP_STOREVAR 5 % 16777216 : Nat) : Int) = 5 % 16777216
    ∧ instrWord OP_STOREVAR (5 + 16777216) = instrWord OP_STOREVAR 5) :=
  ⟨by decide, C2_instruction_format OP_STOREVAR 5 (by decide)⟩

/-- C3 (code bug): the compiler does emit the compiled value followed by a
store for the assigned name, but storing to a name that was never defined
does NOT fail: `_comp` emits a bare STORE_FAST for an assignment, and
`op_storevar` emits STORE_FAST without consulting the environment even for
a name on which `lookup_var` fails (its own TODO comment records the
missing fail-if-not-defined check), silently creating a binding. -/
theorem C3_store_no_unbound_check :
    comp (SExpr.assign "x" (.selfEval (.int 5))) 0
        = ([PyOp.load_const (.cint 5), PyOp.store_fast "x"], 0)
    ∧ lookup_var globalEnv "x" = none
    ∧ op_storevar globalEnv ["x"] 0 = some [PyOp.store_fast "x"] := by
  refine ⟨by simp [comp], by simp [lookup_var, globalEnv, List.lookup], by simp [op_storevar]⟩

/-- C4 (code bug): the conditional jump the compiler and bob2py emit for
FJUMP is CPython's POP_JUMP_IF_FALSE, which branches on host truthiness:
with the number 0 on top of the stack it jumps (0 is falsy in the host),
whereas the FJUMP of the spec falls through on every value other than
boolean false. -/
theorem C4_fjump_zero_falsy :
    (comp (SExpr.ifE (.selfEval (.int 0)) (.selfEval (.int 1)) (.selfEval (.int 2))) 0).1
        = [PyOp.load_const (.cint 0), PyOp.pop_jump_if_false 0,
           PyOp.load_const (.cint 1), PyOp.jump_absolute 1, PyOp.label 0,
           PyOp.load_const (.cint 2), PyOp.label 1]
    ∧ op_fjump (fun _ => 7) 3 = [PyOp.pop_jump_if_false 7]
    ∧ pop_jump_if_false_jumps (PyVal.vint 0) = true
    ∧ fjump_spec_jumps (PyVal.vint 0) = false
    ∧ PyVal.vint 0 ≠ PyVal.vbool false := by
  refine ⟨by simp [comp], rfl, rfl, rfl, by simp⟩

/-- C5: the serialized stream begins with the 4-byte little-endian magic
word whose high 16 bits are the format version (1) and whose low 16 bits
are the sentinel 0x0B0B, followed by the encoding of the top-level
CodeObject. -/
theorem C5_magic_word (co : CodeObject) :
    serialize_bytecode co = word2le MAGIC_CONST ++ serialize co.toObj
    ∧ (serialize_bytecode co).take 4 = [11, 11, 1, 0]
    ∧ MAGIC_CONST % 65536 = 0x0B0B
    ∧ MAGIC_CONST / 65536 = 1 := by
  refine ⟨rfl, ?_, by decide, by decide⟩
  rw [serialize_bytecode,
    List.take_left' (show (word2le MAGIC_CONST).length = 4 from rfl)]
  decide

/-- C6: for every begin / top-level expression sequence, `_comp_exprlist`
emits the compiled code of each sub-expression in order with exactly one
POP_TOP after every sub-expression except the last, and the top-level
compile appends the terminating RETURN_VALUE to that. -/
theorem C6_exprlist_pops (l : List SExpr) (st : Nat) :
    comp (SExpr.beginE l) st = comp_exprlist l st
    ∧ (comp_exprlist l st).1 = popJoin (compPieces l st).1
    ∧ (BobCompiler.compile l).code = (comp_exprlist l 0).1 ++ [PyOp.return_value] := by
  refine ⟨by simp [comp], ?_, rfl⟩
  rw [comp_exprlist_eq]

/-- C7: compilation is deterministic — the compiler's output is a function
of the parsed input alone (all compiler state, the label pool and the
scope frame, is created afresh by `compile_code` for each run), so
compiling equal source text through the same reader twice yields
structurally identical code objects. -/
theorem C7_compile_deterministic (reader : String → Option (List SExpr))
    (s1 s2 : String) (h : s1 = s2) :
    compile_code reader s1 = compile_code reader s2 := by
  rw [h]

theorem C7_compile_deterministic_witness :
    "(+ 1 2)" = "(+ 1 2)" ∧
    compile_code (fun _ => some [SExpr.app (.var "+")
        [.selfEval (.int 1), .selfEval (.int 2)]]) "(+ 1 2)"
      = compile_code (fun _ => some [SExpr.app (.var "+")
        [.selfEval (.int 1), .selfEval (.int 2)]]) "(+ 1 2)" :=
  ⟨rfl, C7_compile_deterministic _ _ _ rfl⟩

/-- C8: the host environment binds the name '+' to the arithmetic-sum
primitive, and applying it to any finite argument list returns the sum of
all the arguments. -/
theorem C8_plus_primitive :
    run_compiled_globals "+" = some (.prim add)
    ∧ ∀ args : List Int, add args = args.sum := by
  refine ⟨rfl, fun args => ?_⟩
  simp [add, List.sum_eq_foldl]

/-- C9: a Symbol serializes to exactly the bytes of the equal string — a
STRING-tagged record with a 4-byte length prefix — although the two values
are distinct, so serialization is not injective. -/
theorem C9_symbol_serializes_as_string :
    (∀ s : List Nat,
      serialize (.osym s) = serialize (.ostr s)
      ∧ serialize (.ostr s) = TYPE_STRING :: (word2le s.length ++ s)
      ∧ BObj.osym s ≠ BObj.ostr s)
    ∧ ¬ Function.Injective serialize := by
  refine ⟨fun s => ⟨rfl, rfl, by simp⟩, fun hinj => ?_⟩
  have h := hinj (show serialize (.osym []) = serialize (.ostr []) from rfl)
  exact BObj.noConfusion h

/-- C10: for every opcode, an Instruction with an absent argument (`None`)
serializes to exactly the bytes of the same instruction with argument 0
(`arg = instr.arg or 0`), so serializing argument-less instructions is
total and never fails. -/
theorem C10_missing_arg_zero (op : Nat) :
    serialize (.oinstr op none) = serialize (.oinstr op (some 0))
    ∧ serialize (.oinstr op none) = TYPE_INSTR :: word2le (instrWord op 0) :=
  ⟨rfl, rfl⟩
